import Mathlib

/-!
Verification of the LDC Panel directory & network configuration translation
engine against its specification.

The repository snapshot contains the React frontend (src/frontend). The
FastAPI backend (services/ldap_cmd.py, services/dhcp_parser.py,
services/samba_tool.py) is not part of the snapshot, so the Directory Record
Builder, Config Grammar, Config Mutation Layer and Command Phrase Builder are
modelled from the specification text; the frontend API client
(src/frontend/src/api/client.ts) is embedded directly from the source.
-/

set_option linter.unusedVariables false

/-- Modelled from the spec: the error kinds of §7 of the specification
(returned as typed results, never ambient failures). -/
inductive CfgError where
  | syntaxError (line : Nat)
  | missingMandatoryAttribute
  | emptyChangeSet
  | invalidRecordData
  | blockNotFound
  | duplicateBlock
deriving DecidableEq

/-! ## Frontend API client (src/frontend/src/api/client.ts) -/

/-- The data argument of ApiClient.createUser
(client.ts line 165): password is optional. -/
structure CreateUserForm where
  username : String
  fullName : String
  email : String
  groups : String
  password : Option String

/-- The JSON body built by ApiClient.createUser (client.ts lines 167-172). -/
structure CreateUserBody where
  sAMAccountName : String
  cn : String
  mail : Option String
  password : String

/-- JavaScript `a || d` on an optional string: the default is used when the
field is absent (undefined) or the empty string (falsy). -/
def jsOrDefault (a : Option String) (d : String) : String :=
  match a with
  | none => d
  | some s => if s = "" then d else s

/-- The apiData object of ApiClient.createUser (client.ts lines 167-172):
`sAMAccountName: data.username, cn: data.fullName || data.username,
mail: data.email || undefined, password: data.password || 'TempPass123!'`. -/
def createUserBody (data : CreateUserForm) : CreateUserBody :=
  { sAMAccountName := data.username
    cn := if data.fullName = "" then data.username else data.fullName
    mail := if data.email = "" then none else some data.email
    password := jsOrDefault data.password "TempPass123!" }

/-- The request path of ApiClient.createUser (client.ts line 173). -/
def createUserPath (serverId : String) : String :=
  "/ad/users?server_id=" ++ serverId

/-- ASCII action of JavaScript String.prototype.toLowerCase on one
character, as applied to a MAC address string in client.ts line 286. -/
def lowerChar (c : Char) : Char :=
  if 'A' ≤ c ∧ c ≤ 'Z' then Char.ofNat (c.toNat + 32) else c

/-- One-character action of `replace(/:/g, '-')` (client.ts line 286). -/
def colonToDash (c : Char) : Char :=
  if c = ':' then '-' else c

/-- The reservation id computed by ApiClient.deleteDhcpReservation
(client.ts line 286): `mac.toLowerCase().replace(/:/g, '-')`. -/
def reservationId (mac : String) : String :=
  String.mk ((mac.data.map lowerChar).map colonToDash)

/-- The DELETE request path of ApiClient.deleteDhcpReservation
(client.ts line 287). -/
def deleteDhcpReservationPath (serverId mac : String) : String :=
  "/dhcp/reservations/" ++ reservationId mac ++ "?server_id=" ++ serverId

/-- Two characters differ only by letter case or by colon-versus-dash. -/
def charEquiv (a b : Char) : Bool :=
  (lowerChar a == lowerChar b) || (a == ':' && b == '-') || (a == '-' && b == ':')

/-- Two MAC strings differ only in letter case or in colon separators. -/
def macEquiv : List Char → List Char → Bool
  | [], [] => true
  | a :: as, b :: bs => charEquiv a b && macEquiv as bs
  | _, _ => false

/-! ## PasswordEncoding (modelled from the spec §3, backend absent) -/

/-- Modelled from the spec: UTF-16 code units of one character
(one unit below U+10000, a surrogate pair above). -/
def utf16Units (c : Char) : List Nat :=
  let n := c.toNat
  if n < 0x10000 then [n]
  else [0xD800 + (n - 0x10000) / 0x400, 0xDC00 + (n - 0x10000) % 0x400]

/-- Modelled from the spec: UTF-16 little-endian byte sequence of a string
(low byte first in each 16-bit unit). -/
def utf16leBytes (s : List Char) : List Nat :=
  (s.flatMap utf16Units).flatMap (fun u => [u % 256, u / 256])

/-- Inverse of the little-endian byte pairing: rebuild 16-bit units. -/
def bytesToUnits : List Nat → Option (List Nat)
  | [] => some []
  | lo :: hi :: rest => (bytesToUnits rest).map (fun us => (lo + 256 * hi) :: us)
  | [_] => none

/-- Decode UTF-16 code units to codepoints, pairing surrogates. -/
def unitsToCodepoints : List Nat → Option (List Nat)
  | [] => some []
  | u :: rest =>
    if 0xD800 ≤ u ∧ u < 0xDC00 then
      match rest with
      | w :: rest2 =>
        if 0xDC00 ≤ w ∧ w < 0xE000 then
          (unitsToCodepoints rest2).map
            (fun ns => (0x10000 + (u - 0xD800) * 0x400 + (w - 0xDC00)) :: ns)
        else none
      | [] => none
    else if 0xDC00 ≤ u ∧ u < 0xE000 then none
    else (unitsToCodepoints rest).map (fun ns => u :: ns)

/-- Full UTF-16LE decoder: bytes to characters. -/
def utf16leDecode (bytes : List Nat) : Option (List Char) :=
  match bytesToUnits bytes with
  | none => none
  | some us =>
    match unitsToCodepoints us with
    | none => none
    | some ns => some (ns.map Char.ofNat)

/-- The base64 alphabet. -/
def b64Alpha : List Char :=
  "ABCDEFGHIJKLMNOPQRSTUVWXYZabcdefghijklmnopqrstuvwxyz0123456789+/".data

/-- Index of a character in a list, counting from i. -/
def alphaIdx (c : Char) : List Char → Nat → Option Nat
  | [], _ => none
  | a :: as, i => if a = c then some i else alphaIdx c as (i + 1)

/-- Character for a 6-bit value. -/
def sextetChar (v : Nat) : Char := b64Alpha.getD v '='

/-- 6-bit value of a base64 character. -/
def sextetVal (c : Char) : Option Nat := alphaIdx c b64Alpha 0

/-- Modelled from the spec: standard base64 encoding of a byte sequence,
with trailing padding. -/
def b64Encode : List Nat → List Char
  | [] => []
  | [b1] => [sextetChar (b1 / 4), sextetChar (b1 % 4 * 16), '=', '=']
  | [b1, b2] =>
      [sextetChar (b1 / 4), sextetChar (b1 % 4 * 16 + b2 / 16),
       sextetChar (b2 % 16 * 4), '=']
  | b1 :: b2 :: b3 :: rest =>
      sextetChar (b1 / 4) :: sextetChar (b1 % 4 * 16 + b2 / 16) ::
      sextetChar (b2 % 16 * 4 + b3 / 64) :: sextetChar (b3 % 64) :: b64Encode rest

/-- Base64 decoding (inverse of b64Encode): groups of four characters, with
padding allowed only in a final group. -/
def b64Decode : List Char → Option (List Nat)
  | [] => some []
  | c1 :: c2 :: c3 :: c4 :: rest =>
    match sextetVal c1, sextetVal c2 with
    | some v1, some v2 =>
      if c3 = '=' then
        if c4 = '=' ∧ rest = [] ∧ v2 % 16 = 0 then some [v1 * 4 + v2 / 16]
        else none
      else
        match sextetVal c3 with
        | some v3 =>
          if c4 = '=' then
            if rest = [] ∧ v3 % 4 = 0 then
              some [v1 * 4 + v2 / 16, v2 % 16 * 16 + v3 / 4]
            else none
          else
            match sextetVal c4, b64Decode rest with
            | some v4, some ns =>
                some ((v1 * 4 + v2 / 16) :: (v2 % 16 * 16 + v3 / 4) ::
                  (v3 % 4 * 64 + v4) :: ns)
            | _, _ => none
        | none => none
    | _, _ => none
  | _ => none

/-- The quoted form of a plaintext password: a quote character on both sides. -/
def quoteWrap (p : String) : List Char := '\"' :: p.data ++ ['\"']

/-- Modelled from the spec: PasswordEncoding — (1) wrap the plaintext in a
quote character on both sides, (2) encode the quoted string as UTF-16
little-endian bytes, (3) encode those bytes as base64 text. -/
def encodePassword (p : String) : String :=
  String.mk (b64Encode (utf16leBytes (quoteWrap p)))

/-- Strip one leading and one trailing quote character. -/
def stripQuotes (s : List Char) : Option (List Char) :=
  match s with
  | '\"' :: rest =>
    match rest.reverse with
    | '\"' :: mid => some mid.reverse
    | _ => none
  | _ => none

/-! ## Directory Record Builder (modelled from the spec §4.1, backend absent) -/

/-- Modelled from the spec: directory object categories, each with a fixed
mandatory attribute set. -/
inductive ObjCategory where
  | user
  | computer
  | group
deriving DecidableEq

/-- Modelled from the spec: a DirectoryObjectSpec — distinguished name plus a
mapping from attribute name to one-or-many string values, in caller order. -/
structure DirObjectSpec where
  dn : String
  attrs : List (String × List String)

/-- Modelled from the spec: the fixed mandatory attribute set per object
category (object class plus naming attributes). -/
def mandatoryAttrs : ObjCategory → List String
  | .user => ["objectClass", "cn", "sAMAccountName"]
  | .computer => ["objectClass", "cn", "sAMAccountName"]
  | .group => ["objectClass", "cn"]

/-- An attribute is present when it is supplied with at least one value. -/
def hasAttr (spec : DirObjectSpec) (m : String) : Bool :=
  spec.attrs.any (fun a => a.1 == m && !a.2.isEmpty)

/-- One output line per attribute value, in caller-supplied order. -/
def attrLines (spec : DirObjectSpec) : List String :=
  spec.attrs.flatMap (fun a => a.2.map (fun v => a.1 ++ ": " ++ v))

/-- The change-record lines produced for a successful add. -/
def addLines (spec : DirObjectSpec) : List String :=
  ("dn: " ++ spec.dn) :: "changetype: add" :: attrLines spec

/-- Modelled from the spec: BuildAdd — emits a dn line, a changetype add
line and the attribute lines; fails with MissingMandatoryAttribute when the
mandatory set of the target category is absent. -/
def buildAdd (cat : ObjCategory) (spec : DirObjectSpec) :
    Except CfgError (List String) :=
  if (mandatoryAttrs cat).all (hasAttr spec) then .ok (addLines spec)
  else .error .missingMandatoryAttribute

/-- Modelled from the spec: an AttributeChange operation kind. -/
inductive ChangeOp where
  | add
  | replace
  | delete
deriving DecidableEq

/-- Modelled from the spec: AttributeChange — one attribute mutation. -/
structure AttributeChange where
  op : ChangeOp
  attr : String
  values : List String

/-- The LDIF label of a modify operation. -/
def opLabel : ChangeOp → String
  | .add => "add"
  | .replace => "replace"
  | .delete => "delete"

/-- The lines of one modify sub-block: the operation line, the value lines,
then a line containing only a dash. -/
def changeLines (ch : AttributeChange) : List String :=
  (opLabel ch.op ++ ": " ++ ch.attr) ::
    (ch.values.map (fun v => ch.attr ++ ": " ++ v) ++ ["-"])

/-- Modelled from the spec: BuildModify — a dn line, changetype modify, then
one sub-block per AttributeChange; fails with EmptyChangeSet on zero
changes. -/
def buildModify (dn : String) (chs : List AttributeChange) :
    Except CfgError (List String) :=
  if chs.isEmpty then .error .emptyChangeSet
  else .ok (("dn: " ++ dn) :: "changetype: modify" :: chs.flatMap changeLines)

/-- A line is a dn line when it starts with the four characters of a dn
attribute statement. -/
def isDnLine (l : String) : Bool :=
  decide (l.data.take 4 = ['d', 'n', ':', ' '])

/-! ## Command Phrase Builder (modelled from the spec §4.4, backend absent) -/

/-- The DNS record types offered by the panel (DNSSection.tsx lines 173-178)
plus NS and PTR from the spec. -/
inductive DnsRecordType where
  | A
  | AAAA
  | CNAME
  | MX
  | TXT
  | SRV
  | NS
  | PTR
deriving DecidableEq

/-- The textual name of a DNS record type. -/
def dnsTypeName : DnsRecordType → String
  | .A => "A"
  | .AAAA => "AAAA"
  | .CNAME => "CNAME"
  | .MX => "MX"
  | .TXT => "TXT"
  | .SRV => "SRV"
  | .NS => "NS"
  | .PTR => "PTR"

/-- Split a character list at a separator character. -/
def splitOnChar (sep : Char) : List Char → List (List Char)
  | [] => [[]]
  | c :: cs =>
    let r := splitOnChar sep cs
    if c = sep then [] :: r
    else
      match r with
      | t :: ts => (c :: t) :: ts
      | [] => [[c]]

/-- Whitespace characters. -/
def isWsChar (c : Char) : Bool :=
  c == ' ' || c == '\t' || c == '\r' || c == '\n'

/-- Whitespace-separated tokens of a string. -/
def tokensOf (s : String) : List String :=
  ((splitOnChar ' ' (s.data.map (fun c => if isWsChar c then ' ' else c))).filter
    (fun t => !t.isEmpty)).map String.mk

/-- Numeric value of a digit run (none when a non-digit occurs). -/
def digitsToNat : List Char → Nat → Option Nat
  | [], acc => some acc
  | c :: cs, acc =>
    if c.isDigit then digitsToNat cs (acc * 10 + (c.toNat - 48)) else none

/-- A nonempty all-digit token. -/
def isDigitsTok (s : String) : Bool :=
  !s.isEmpty && s.data.all Char.isDigit

/-- A dotted-quad IPv4 octet: digits with value at most 255. -/
def isOctet (t : List Char) : Bool :=
  !t.isEmpty &&
    match digitsToNat t 0 with
    | some n => n ≤ 255
    | none => false

/-- A literal IPv4 address token: four dot-separated octets. -/
def isIPv4 (s : String) : Bool :=
  match splitOnChar '.' s.data with
  | [a, b, c, d] => isOctet a && isOctet b && isOctet c && isOctet d
  | _ => false

/-- A hexadecimal digit. -/
def isHexChar (c : Char) : Bool :=
  c.isDigit || decide ('a' ≤ c ∧ c ≤ 'f') || decide ('A' ≤ c ∧ c ≤ 'F')

/-- A literal IPv6 address token: hexadecimal digits and colons, with at
least one colon. -/
def isIPv6 (s : String) : Bool :=
  !s.isEmpty && s.data.all (fun c => isHexChar c || c == ':') &&
    s.data.any (fun c => c == ':')

/-- A single nonempty token without whitespace. -/
def isSingleToken (s : String) : Bool :=
  !s.isEmpty && s.data.all (fun c => !isWsChar c)

/-- Modelled from the spec: record-type-specific shape validation — A/AAAA
require a literal address token, MX a priority-host pair, SRV a
priority-weight-port-target quadruple, CNAME/TXT/NS/PTR a single token. -/
def validDnsData (t : DnsRecordType) (data : String) : Bool :=
  match t with
  | .A => isIPv4 data
  | .AAAA => isIPv6 data
  | .MX =>
    match tokensOf data with
    | [p, h] => isDigitsTok p && isSingleToken h
    | _ => false
  | .SRV =>
    match tokensOf data with
    | [p, w, po, tg] =>
        isDigitsTok p && isDigitsTok w && isDigitsTok po && isSingleToken tg
    | _ => false
  | _ => isSingleToken data

/-- Modelled from the spec: BuildDnsAdd — validates the record-type-specific
shape, then emits the fixed token order (verb, sub-verb, zone, name, type,
data, ttl-flag); fails with InvalidRecordData otherwise. -/
def buildDnsAdd (zone name : String) (t : DnsRecordType) (data : String)
    (ttl : Nat) : Except CfgError (List String) :=
  if validDnsData t data then
    .ok ["dns", "add", zone, name, dnsTypeName t, data, "--ttl=" ++ toString ttl]
  else .error .invalidRecordData

-- ===== CONFIG GRAMMAR =====

/-- Modelled from the spec: a ConfigDocument entry — a directive (terminated
by a semicolon), a brace-delimited named block of nested entries, or a span
of comment/blank text preserved verbatim. Every entry carries the raw
characters it was parsed from, so serialization is byte-exact. -/
inductive CEntry where
  | directive (content : String) (raw : List Char)
  | block (header : String) (body : List CEntry) (rawOpen rawClose : List Char)
  | rawSpan (raw : List Char)

mutual

/-- Serialize one entry: emit its raw characters verbatim. -/
def serE : CEntry → List Char
  | .directive _ raw => raw
  | .block _ body ro rc => ro ++ serL body ++ rc
  | .rawSpan raw => raw

/-- Serialize a list of entries in order. -/
def serL : List CEntry → List Char
  | [] => []
  | e :: es => serE e ++ serL es

end

/-- Modelled from the spec: Serialize — serializing a ConfigDocument
unmodified reproduces the original text byte-for-byte. -/
def serializeConfig (doc : List CEntry) : String :=
  String.mk (serL doc)

/-- Same-line whitespace (no newline). -/
def isInlineWs (c : Char) : Bool :=
  c == ' ' || c == '\t' || c == '\r'

/-- A line consisting only of whitespace. -/
def isBlankLine (l : List Char) : Bool :=
  l.all isInlineWs

/-- A comment line: the first non-whitespace character is a hash. -/
def isCommentLine (l : List Char) : Bool :=
  match l.dropWhile isInlineWs with
  | c :: _ => c == '#'
  | [] => false

/-- A line whose first non-whitespace character closes a block. -/
def startsClose (l : List Char) : Bool :=
  match l.dropWhile isInlineWs with
  | c :: _ => c == '\x7d'
  | [] => false

/-- Count the newline characters of a span (for 1-based line numbers). -/
def countNl (l : List Char) : Nat :=
  l.countP (fun c => c == '\n')

/-- A grammar-special character: directive terminator or block delimiter. -/
def isSpecial (c : Char) : Bool :=
  c == ';' || c == '\x7b' || c == '\x7d'

/-- Scan for the first grammar-special character, returning the text before
it, the character, and the text after it. -/
def scanTok : List Char → Option (List Char × Char × List Char)
  | [] => none
  | c :: cs =>
    if isSpecial c then some ([], c, cs)
    else
      match scanTok cs with
      | some (b, sp, a) => some (c :: b, sp, a)
      | none => none

/-- Consume the closing brace of a block together with its same-line
indentation, returning the consumed raw span and the remainder. -/
def consumeClose (input : List Char) : Option (List Char × List Char) :=
  match input.dropWhile isInlineWs with
  | c :: rest =>
    if c = '\x7d' then some (input.takeWhile isInlineWs ++ ['\x7d'], rest)
    else none
  | [] => none

/-- Trim whitespace from both ends of a character list. -/
def trimWs (l : List Char) : List Char :=
  ((l.dropWhile isWsChar).reverse.dropWhile isWsChar).reverse

/-- The trimmed textual content of a span (directive text or block header). -/
def contentOf (l : List Char) : String :=
  String.mk (trimWs l)

/-- Modelled from the spec: the recursive-descent configuration parser.
Entries terminated by a semicolon are directives; a header followed by an
opening brace starts a block parsed recursively to its closing brace;
comment and blank lines are opaque spans kept at their position. An
unterminated block or directive fails with a SyntaxError carrying the
1-based line number; the whole parse aborts. The fuel argument bounds
recursion and strictly exceeds the input length on the initial call. -/
def parseEntries : Nat → List Char → Nat → Bool →
    Except CfgError (List CEntry × List Char × Nat)
  | 0, _, line, _ => .error (.syntaxError line)
  | _ + 1, [], line, inBlk =>
      if inBlk then .error (.syntaxError line) else .ok ([], [], line)
  | fuel + 1, c :: cs, line, inBlk =>
      let input := c :: cs
      let l := input.takeWhile (fun ch => ch ≠ '\n')
      if isBlankLine l || isCommentLine l then
        let raw := input.take (l.length + 1)
        let rest := input.drop (l.length + 1)
        match parseEntries fuel rest (line + countNl raw) inBlk with
        | .ok (es, rem, ln) => .ok (.rawSpan raw :: es, rem, ln)
        | .error e => .error e
      else if startsClose l then
        if inBlk then .ok ([], input, line) else .error (.syntaxError line)
      else
        match scanTok input with
        | none => .error (.syntaxError line)
        | some (bef, sp, aft) =>
          if sp = ';' then
            match parseEntries fuel aft (line + countNl bef) inBlk with
            | .ok (es, rem, ln) =>
                .ok (.directive (contentOf bef) (bef ++ [';']) :: es, rem, ln)
            | .error e => .error e
          else if sp = '\x7b' then
            match parseEntries fuel aft (line + countNl bef) true with
            | .ok (body, rem, ln2) =>
              match consumeClose rem with
              | some (rawClose, rem2) =>
                match parseEntries fuel rem2 ln2 inBlk with
                | .ok (es, rem3, ln3) =>
                    .ok (.block (contentOf bef) body (bef ++ ['\x7b']) rawClose
                      :: es, rem3, ln3)
                | .error e => .error e
              | none => .error (.syntaxError ln2)
            | .error e => .error e
          else .error (.syntaxError line)

/-- Modelled from the spec: Parse — parse a whole configuration text into a
ConfigDocument, failing with a SyntaxError on unterminated constructs. -/
def parseConfig (text : String) : Except CfgError (List CEntry) :=
  match parseEntries (text.data.length + 1) text.data 1 false with
  | .ok (es, [], _) => .ok es
  | .ok (_, _ :: _, ln) => .error (.syntaxError ln)
  | .error e => .error e

-- ===== CONFIG MUTATION LAYER =====

/-- Header tokens of a block (whitespace-separated words). -/
def headerTokens (h : String) : List String :=
  tokensOf h

/-- A subnet block header for the given network and mask. -/
def isSubnetHeader (net mask h : String) : Bool :=
  decide (headerTokens h = ["subnet", net, "netmask", mask])

/-- A subnet block with the given network and mask. -/
def entryIsSubnet (net mask : String) : CEntry → Bool
  | .block h _ _ _ => isSubnetHeader net mask h
  | _ => false

/-- A host block with the given name. -/
def isHostEntry (hn : String) : CEntry → Bool
  | .block h _ _ _ => decide (headerTokens h = ["host", hn])
  | _ => false

/-- Whether the document contains a host block of the given name. -/
def hasHost (doc : List CEntry) (hn : String) : Bool :=
  doc.any (isHostEntry hn)

/-- Whether the document contains a subnet block with the given network and
mask. -/
def hasSubnet (doc : List CEntry) (net mask : String) : Bool :=
  doc.any (entryIsSubnet net mask)

/-- Modelled from the spec: RemoveHost — removes the matching host block
span; fails with BlockNotFound when no host block of that name exists, and
the input document is returned nowhere (no partial mutation). -/
def removeHost (doc : List CEntry) (hn : String) :
    Except CfgError (List CEntry) :=
  match doc with
  | [] => .error .blockNotFound
  | e :: es =>
    if isHostEntry hn e then .ok es
    else
      match removeHost es hn with
      | .ok es2 => .ok (e :: es2)
      | .error er => .error er

/-- Whether a list of entries contains a block whose first header token is
the given keyword. -/
def containsBlockKw (doc : List CEntry) (kw : String) : Bool :=
  doc.any (fun e =>
    match e with
    | .block h _ _ _ => (headerTokens h).head? == some kw
    | _ => false)

/-- Modelled from the spec: insert a new block after the last existing
top-level block of the same keyword; if none exists, append at the end of
the document. -/
def insertAfterLastBlock (doc : List CEntry) (kw : String) (e : CEntry) :
    List CEntry :=
  match doc with
  | [] => [e]
  | x :: xs =>
    if containsBlockKw xs kw then x :: insertAfterLastBlock xs kw e
    else
      match x with
      | .block h _ _ _ =>
        if (headerTokens h).head? == some kw then x :: e :: xs
        else x :: insertAfterLastBlock xs kw e
      | _ => x :: insertAfterLastBlock xs kw e

/-- A freshly constructed subnet block (normalized single-space formatting,
as the spec prescribes for newly constructed entries). -/
def mkSubnetBlock (net mask : String) (body : List CEntry) : CEntry :=
  .block ("subnet " ++ net ++ " netmask " ++ mask) body
    ("subnet " ++ net ++ " netmask " ++ mask ++ " \x7b").data ("\x7d\n").data

/-- Modelled from the spec: AddSubnet — fails with DuplicateBlock when a
subnet block with the same network and mask already exists; otherwise
inserts the new block after the last subnet block (or at the end). -/
def addSubnet (doc : List CEntry) (net mask : String) (body : List CEntry) :
    Except CfgError (List CEntry) :=
  if hasSubnet doc net mask then .error .duplicateBlock
  else .ok (insertAfterLastBlock doc "subnet" (mkSubnetBlock net mask body))

/-- Modelled from the spec: the partial fields of an UpdateSubnet call; a
field that is none is not touched. -/
structure SubnetPatch where
  range : Option String
  routers : Option String
  dns : Option String

/-- The replacement content for a nested directive named by the patch, or
none when the directive is not named by any present field. -/
def patchDirective (p : SubnetPatch) (content : String) : Option String :=
  match tokensOf content with
  | "range" :: _ => p.range.map (fun v => "range " ++ v)
  | "option" :: "routers" :: _ => p.routers.map (fun v => "option routers " ++ v)
  | "option" :: "domain-name-servers" :: _ =>
      p.dns.map (fun v => "option domain-name-servers " ++ v)
  | _ => none

/-- Apply the patch to one nested entry: a directive named by a present
field is rebuilt (keeping its original indentation); every other entry is
returned unchanged, raw bytes included. -/
def patchEntry (p : SubnetPatch) (e : CEntry) : CEntry :=
  match e with
  | .directive content raw =>
    match patchDirective p content with
    | some c2 => .directive c2 (raw.takeWhile isInlineWs ++ c2.data ++ [';'])
    | none => e
  | _ => e

/-- Modelled from the spec: UpdateSubnet — replaces only the nested
directives explicitly present in the partial fields of the matching subnet
block; fails with BlockNotFound when the subnet does not exist. -/
def updateSubnet (doc : List CEntry) (net mask : String) (p : SubnetPatch) :
    Except CfgError (List CEntry) :=
  match doc with
  | [] => .error .blockNotFound
  | .block h body ro rc :: es =>
    if isSubnetHeader net mask h then
      .ok (.block h (body.map (patchEntry p)) ro rc :: es)
    else
      match updateSubnet es net mask p with
      | .ok es2 => .ok (.block h body ro rc :: es2)
      | .error er => .error er
  | e :: es =>
    match updateSubnet es net mask p with
    | .ok es2 => .ok (e :: es2)
    | .error er => .error er

/-- An entry none of whose content is named by a present patch field. -/
def untouchedBy (p : SubnetPatch) (e : CEntry) : Prop :=
  match e with
  | .directive content _ => patchDirective p content = none
  | _ => True

/-- A character of a bare configuration token: not a grammar-special
character, not a newline, not a comment marker, not whitespace. -/
def isPlainChar (c : Char) : Bool :=
  !isSpecial c && !(c == '\n') && !(c == '#') && !isInlineWs c

-- ===== SAMPLE INPUTS =====

/-- A document containing a single host block named server-01. -/
def sampleHostDoc : List CEntry :=
  (parseConfig ("host server-01 \x7b\n" ++
    "  hardware ethernet 00:11:22:33:44:55;\n" ++
    "  fixed-address 192.168.1.50;\n" ++
    "\x7d\n")).toOption.getD []

/-- The configuration text of the spec scenario (§8). -/
def sampleText : String :=
  "subnet 192.168.1.0 netmask 255.255.255.0 \x7b\n" ++
  "  range 192.168.1.100 192.168.1.200;\n" ++
  "  option routers 192.168.1.1;\n" ++
  "\x7d\n"

/-- The document the parser produces for the sample text. -/
def sampleParsed : List CEntry :=
  (parseConfig sampleText).toOption.getD []

/-- The sample text after the scenario edit: only the range line changed. -/
def sampleTextEdited : String :=
  "subnet 192.168.1.0 netmask 255.255.255.0 \x7b\n" ++
  "  range 192.168.1.150 192.168.1.250;\n" ++
  "  option routers 192.168.1.1;\n" ++
  "\x7d\n"

/-- The scenario patch: only a new range value. -/
def samplePatch : SubnetPatch :=
  { range := some "192.168.1.150 192.168.1.250", routers := none, dns := none }

/-- The document produced by the scenario UpdateSubnet call. -/
def sampleUpdated : List CEntry :=
  (updateSubnet sampleParsed "192.168.1.0" "255.255.255.0" samplePatch).toOption.getD []

/-- A sample valid user-creation input. -/
def sampleUserSpec : DirObjectSpec :=
  { dn := "CN=Ivan Ivanov,CN=Users,DC=dom,DC=local"
    attrs := [("objectClass", ["user"]), ("cn", ["Ivan Ivanov"]),
              ("sAMAccountName", ["ivanov"]), ("mail", ["ivanov@dom.local"])] }

-- ===== THEOREMS =====

theorem charEquiv_norm {a b : Char} (h : charEquiv a b = true) :
    colonToDash (lowerChar a) = colonToDash (lowerChar b) := by
  simp only [charEquiv, Bool.or_eq_true, Bool.and_eq_true, beq_iff_eq] at h
  rcases h with (h | ⟨h1, h2⟩) | ⟨h1, h2⟩
  · rw [h]
  · subst h1; subst h2; decide
  · subst h1; subst h2; decide

theorem macEquiv_norm : ∀ l1 l2 : List Char, macEquiv l1 l2 = true →
    (l1.map lowerChar).map colonToDash = (l2.map lowerChar).map colonToDash := by
  intro l1
  induction l1 with
  | nil =>
    intro l2 h2
    cases l2 with
    | nil => rfl
    | cons b bs => simp [macEquiv] at h2
  | cons a as ih =>
    intro l2 h2
    cases l2 with
    | nil => simp [macEquiv] at h2
    | cons b bs =>
      simp only [macEquiv, Bool.and_eq_true] at h2
      simp only [List.map_cons]
      rw [charEquiv_norm h2.1, ih bs h2.2]

theorem isDnLine_dn (s : String) : isDnLine ("dn: " ++ s) = true := by
  simp only [isDnLine, String.data_append, decide_eq_true_eq]
  rfl

theorem attrLine_not_dn {a v : String} (h1 : a ≠ "dn") (h2 : ':' ∉ a.data) :
    isDnLine (a ++ ": " ++ v) = false := by
  have hd : (a ++ ": " ++ v).data = a.data ++ ':' :: ' ' :: v.data := by
    simp [String.data_append]
  simp only [isDnLine, hd, decide_eq_false_iff_not]
  intro hEq
  rcases hA : a.data with _ | ⟨x, _ | ⟨y, _ | ⟨z, rest⟩⟩⟩
  · rw [hA] at hEq
    simp [List.take] at hEq
  · rw [hA] at hEq
    simp [List.take] at hEq
  · rw [hA] at hEq
    simp [List.take] at hEq
    obtain ⟨hx, hy⟩ := hEq
    subst hx
    subst hy
    exact h1 (String.ext (hA.trans rfl))
  · rw [hA] at hEq
    simp [List.take] at hEq
    obtain ⟨hx, hy, hz, hrest⟩ := hEq
    subst hz
    apply h2
    rw [hA]
    simp

theorem attrLines_no_dn : ∀ l : List (String × List String),
    (∀ a ∈ l, a.1 ≠ "dn" ∧ ':' ∉ a.1.data) →
    (l.flatMap (fun a => a.2.map (fun v => a.1 ++ ": " ++ v))).countP isDnLine
      = 0 := by
  intro l
  induction l with
  | nil => intro _; rfl
  | cons a as ih =>
    intro hl
    simp only [List.flatMap_cons, List.countP_append]
    rw [ih (fun b hb => hl b (List.mem_cons_of_mem a hb))]
    have hone : (a.2.map (fun v => a.1 ++ ": " ++ v)).countP isDnLine = 0 := by
      induction a.2 with
      | nil => rfl
      | cons v vs ihv =>
        simp only [List.map_cons, List.countP_cons]
        have hno := attrLine_not_dn (hl a (List.mem_cons_self a as)).1
          (hl a (List.mem_cons_self a as)).2 (v := v)
        simp [ihv, hno]
    simp [hone]

theorem mandatory_line_mem (spec : DirObjectSpec) (m : String)
    (hm : hasAttr spec m = true) :
    ∃ v, (m ++ ": " ++ v) ∈ attrLines spec := by
  unfold hasAttr at hm
  simp only [List.any_eq_true, Bool.and_eq_true, beq_iff_eq] at hm
  obtain ⟨a, ha, h1, h2⟩ := hm
  cases hv : a.2 with
  | nil => rw [hv] at h2; simp at h2
  | cons v vs =>
    refine ⟨v, ?_⟩
    unfold attrLines
    rw [List.mem_flatMap]
    refine ⟨a, ha, ?_⟩
    rw [hv, h1]
    simp

/-- C9: ApiClient.createUser posts a body whose password field is the
literal TempPass123! whenever the supplied password is absent or the empty
string, and forwards a non-empty supplied password unchanged. -/
theorem createUser_password_default (data : CreateUserForm) :
    ((data.password = none ∨ data.password = some "") →
      (createUserBody data).password = "TempPass123!") ∧
    (∀ p, data.password = some p → p ≠ "" →
      (createUserBody data).password = p) := by
  constructor
  · rintro (h | h) <;> simp [createUserBody, jsOrDefault, h]
  · intro p hp hne
    simp [createUserBody, jsOrDefault, hp, hne]

theorem createUser_password_default_witness :
    (createUserBody ⟨"u", "", "", "", none⟩).password = "TempPass123!" ∧
    (createUserBody ⟨"u", "", "", "", some "Secret1"⟩).password = "Secret1" :=
  ⟨(createUser_password_default ⟨"u", "", "", "", none⟩).1 (Or.inl rfl),
   (createUser_password_default ⟨"u", "", "", "", some "Secret1"⟩).2 "Secret1" rfl
     (by decide)⟩

/-- C10: ApiClient.deleteDhcpReservation targets the reservation id obtained
by lowercasing the MAC and replacing every colon with a dash, so two MAC
strings differing only in letter case or in colon separators target the same
reservation id (and the same DELETE path). -/
theorem deleteDhcpReservation_mac_normalization (serverId m1 m2 : String)
    (h : macEquiv m1.data m2.data = true) :
    reservationId m1 = reservationId m2 ∧
    deleteDhcpReservationPath serverId m1 = deleteDhcpReservationPath serverId m2 := by
  have hid : reservationId m1 = reservationId m2 := by
    unfold reservationId
    rw [macEquiv_norm _ _ h]
  refine ⟨hid, ?_⟩
  unfold deleteDhcpReservationPath
  rw [hid]

theorem deleteDhcpReservation_mac_normalization_witness :
    macEquiv "AA:BB:CC:11:22:33".data "aa-bb-cc-11-22-33".data = true ∧
    reservationId "AA:BB:CC:11:22:33" = reservationId "aa-bb-cc-11-22-33" :=
  ⟨by decide,
   (deleteDhcpReservation_mac_normalization "s" "AA:BB:CC:11:22:33"
      "aa-bb-cc-11-22-33" (by decide)).1⟩

/-- C7: BuildModify on a singleton replace change yields one block with the
dn line, changetype modify, the replace line, the attribute value line, and
a terminating line containing only a dash. -/
theorem buildModify_replace_block (dn a v : String) :
    buildModify dn [⟨ChangeOp.replace, a, [v]⟩] =
      .ok [("dn: " ++ dn), "changetype: modify", ("replace: " ++ a),
           (a ++ ": " ++ v), "-"] := by
  rfl

/-- C5: for the record types offered by the panel, BuildDnsAdd emits the
fixed token order (verb, sub-verb, zone, name, type, data, ttl-flag) when
the data has the record-type-specific shape, and fails with
InvalidRecordData otherwise. -/
theorem buildDnsAdd_shape (zone name : String) (t : DnsRecordType)
    (data : String) (ttl : Nat)
    (ht : t ∈ [DnsRecordType.A, .AAAA, .CNAME, .MX, .TXT, .SRV]) :
    (validDnsData t data = true →
      buildDnsAdd zone name t data ttl =
        .ok ["dns", "add", zone, name, dnsTypeName t, data,
             "--ttl=" ++ toString ttl]) ∧
    (validDnsData t data = false →
      buildDnsAdd zone name t data ttl = .error .invalidRecordData) := by
  constructor <;> intro h <;> simp [buildDnsAdd, h]

theorem buildDnsAdd_shape_witness :
    buildDnsAdd "dom.local" "mail" .MX "10 mail.dom.local" 3600 =
      .ok ["dns", "add", "dom.local", "mail", "MX", "10 mail.dom.local",
           "--ttl=3600"] ∧
    buildDnsAdd "dom.local" "bad" .A "999.300.1.1" 3600 =
      .error .invalidRecordData :=
  ⟨(buildDnsAdd_shape "dom.local" "mail" .MX "10 mail.dom.local" 3600
      (by decide)).1 (by decide),
   (buildDnsAdd_shape "dom.local" "bad" .A "999.300.1.1" 3600
      (by decide)).2 (by decide)⟩

/-- C6: for valid user-creation input, BuildAdd emits exactly one dn line, a
changetype add line, and every attribute of the mandatory set of the object
category; it fails with MissingMandatoryAttribute when the mandatory set is
not fully supplied. -/
theorem buildAdd_shape (cat : ObjCategory) (spec : DirObjectSpec)
    (hnames : ∀ a ∈ spec.attrs, a.1 ≠ "dn" ∧ ':' ∉ a.1.data) :
    ((mandatoryAttrs cat).all (hasAttr spec) = true →
      buildAdd cat spec = .ok (addLines spec) ∧
      (addLines spec).countP isDnLine = 1 ∧
      "changetype: add" ∈ addLines spec ∧
      ∀ m ∈ mandatoryAttrs cat, ∃ v, (m ++ ": " ++ v) ∈ addLines spec) ∧
    ((mandatoryAttrs cat).all (hasAttr spec) = false →
      buildAdd cat spec = .error .missingMandatoryAttribute) := by
  constructor
  · intro hall
    refine ⟨by simp [buildAdd, hall], ?_, by simp [addLines], ?_⟩
    · unfold addLines
      rw [List.countP_cons, List.countP_cons]
      have hattr := attrLines_no_dn spec.attrs hnames
      unfold attrLines
      rw [hattr]
      simp [isDnLine_dn spec.dn]
      decide
    · intro m hm
      have hasm : hasAttr spec m = true :=
        List.all_eq_true.mp hall m hm
      obtain ⟨v, hv⟩ := mandatory_line_mem spec m hasm
      exact ⟨v, by simp [addLines, hv]⟩
  · intro hfail
    simp [buildAdd, hfail]

theorem buildAdd_shape_witness :
    buildAdd .user sampleUserSpec = .ok (addLines sampleUserSpec) ∧
    (addLines sampleUserSpec).countP isDnLine = 1 ∧
    "changetype: add" ∈ addLines sampleUserSpec ∧
    ∀ m ∈ mandatoryAttrs .user, ∃ v, (m ++ ": " ++ v) ∈ addLines sampleUserSpec :=
  (buildAdd_shape .user sampleUserSpec (by decide)).1 (by decide)

theorem bytesToUnits_pairs : ∀ us : List Nat,
    bytesToUnits (us.flatMap (fun u => [u % 256, u / 256])) = some us := by
  intro us
  induction us with
  | nil => rfl
  | cons u rest ih =>
    simp only [List.flatMap_cons, List.cons_append, List.nil_append]
    simp only [bytesToUnits, ih, Option.map_some']
    have hu : u % 256 + 256 * (u / 256) = u := by omega
    rw [hu]

theorem unitsToCodepoints_cons_bmp (u : Nat) (rest : List Nat)
    (h1 : ¬ (0xD800 ≤ u ∧ u < 0xDC00)) (h2 : ¬ (0xDC00 ≤ u ∧ u < 0xE000)) :
    unitsToCodepoints (u :: rest) =
      (unitsToCodepoints rest).map (fun ns => u :: ns) := by
  cases rest with
  | nil => simp [unitsToCodepoints, if_neg h1, if_neg h2]
  | cons w ws => simp [unitsToCodepoints, if_neg h1, if_neg h2]

theorem unitsToCodepoints_encode : ∀ s : List Char,
    unitsToCodepoints (s.flatMap utf16Units) = some (s.map Char.toNat) := by
  intro s
  induction s with
  | nil => rfl
  | cons c cs ih =>
    have hv : c.toNat < 0xD800 ∨ (0xDFFF < c.toNat ∧ c.toNat < 0x110000) := c.valid
    simp only [List.flatMap_cons, List.map_cons]
    by_cases hb : c.toNat < 0x10000
    · have hu : utf16Units c = [c.toNat] := by simp [utf16Units, hb]
      rw [hu]
      have h1 : ¬ (0xD800 ≤ c.toNat ∧ c.toNat < 0xDC00) := by omega
      have h2 : ¬ (0xDC00 ≤ c.toNat ∧ c.toNat < 0xE000) := by omega
      simp only [List.cons_append, List.nil_append]
      rw [unitsToCodepoints_cons_bmp _ _ h1 h2, ih, Option.map_some']
    · have hmax : c.toNat < 0x110000 := by omega
      have hu : utf16Units c =
          [0xD800 + (c.toNat - 0x10000) / 0x400,
           0xDC00 + (c.toNat - 0x10000) % 0x400] := by
        simp [utf16Units, hb]
      rw [hu]
      have hq : (c.toNat - 0x10000) / 0x400 < 0x400 := by omega
      have h1 : 0xD800 ≤ 0xD800 + (c.toNat - 0x10000) / 0x400 ∧
          0xD800 + (c.toNat - 0x10000) / 0x400 < 0xDC00 := by omega
      have h2 : 0xDC00 ≤ 0xDC00 + (c.toNat - 0x10000) % 0x400 ∧
          0xDC00 + (c.toNat - 0x10000) % 0x400 < 0xE000 := by omega
      simp only [List.cons_append, List.nil_append, unitsToCodepoints,
        if_pos h1, if_pos h2, ih, Option.map_some']
      have hn : 0x10000 + (0xD800 + (c.toNat - 0x10000) / 0x400 - 0xD800) * 0x400 +
          (0xDC00 + (c.toNat - 0x10000) % 0x400 - 0xDC00) = c.toNat := by omega
      simp only [List.append_eq, List.nil_append]
      rw [ih, Option.map_some', hn]

theorem map_ofNat_toNat (s : List Char) : (s.map Char.toNat).map Char.ofNat = s := by
  induction s with
  | nil => rfl
  | cons c cs ih => simp [ih, Char.ofNat_toNat]

theorem utf16leDecode_encode (s : List Char) :
    utf16leDecode (utf16leBytes s) = some s := by
  simp [utf16leDecode, utf16leBytes, bytesToUnits_pairs,
    unitsToCodepoints_encode, Function.comp, Char.ofNat_toNat]
  rw [← List.map_map]
  exact map_ofNat_toNat s

set_option maxHeartbeats 1000000 in
theorem sextet_inverse : ∀ v : Fin 64, sextetVal (sextetChar v.val) = some v.val := by
  decide

theorem sextet_inverse2 (v : Nat) (h : v < 64) :
    sextetVal (sextetChar v) = some v :=
  sextet_inverse ⟨v, h⟩

set_option maxHeartbeats 1000000 in
theorem sextetChar_ne_pad : ∀ v : Fin 64, sextetChar v.val ≠ '=' := by
  decide

theorem sextetChar_ne_pad2 (v : Nat) (h : v < 64) : sextetChar v ≠ '=' :=
  sextetChar_ne_pad ⟨v, h⟩

theorem b64_roundtrip : ∀ bs : List Nat, (∀ b ∈ bs, b < 256) →
    b64Decode (b64Encode bs) = some bs
  | [], _ => rfl
  | [b1], hb => by
    have h1 : b1 < 256 := hb b1 (by simp)
    have e1 := sextet_inverse2 (b1 / 4) (by omega)
    have e2 := sextet_inverse2 (b1 % 4 * 16) (by omega)
    simp only [b64Encode, b64Decode, e1, e2, if_pos rfl]
    have hmod : b1 % 4 * 16 % 16 = 0 := by omega
    simp [hmod]
    omega
  | [b1, b2], hb => by
    have h1 : b1 < 256 := hb b1 (by simp)
    have h2 : b2 < 256 := hb b2 (by simp)
    have e1 := sextet_inverse2 (b1 / 4) (by omega)
    have e2 := sextet_inverse2 (b1 % 4 * 16 + b2 / 16) (by omega)
    have e3 := sextet_inverse2 (b2 % 16 * 4) (by omega)
    have hne := sextetChar_ne_pad2 (b2 % 16 * 4) (by omega)
    simp only [b64Encode, b64Decode, e1, e2, e3, if_neg hne, if_pos rfl]
    have hmod : b2 % 16 * 4 % 4 = 0 := by omega
    have r1 : b1 / 4 * 4 + (b1 % 4 * 16 + b2 / 16) / 16 = b1 := by omega
    have r2 : (b1 % 4 * 16 + b2 / 16) % 16 * 16 + b2 % 16 * 4 / 4 = b2 := by omega
    simp [hmod, r1, r2]
    omega
  | b1 :: b2 :: b3 :: b4 :: rest, hb => by
    have h1 : b1 < 256 := hb b1 (by simp)
    have h2 : b2 < 256 := hb b2 (by simp)
    have h3 : b3 < 256 := hb b3 (by simp)
    have e1 := sextet_inverse2 (b1 / 4) (by omega)
    have e2 := sextet_inverse2 (b1 % 4 * 16 + b2 / 16) (by omega)
    have e3 := sextet_inverse2 (b2 % 16 * 4 + b3 / 64) (by omega)
    have e4 := sextet_inverse2 (b3 % 64) (by omega)
    have hne3 := sextetChar_ne_pad2 (b2 % 16 * 4 + b3 / 64) (by omega)
    have hne4 := sextetChar_ne_pad2 (b3 % 64) (by omega)
    have ih := b64_roundtrip (b4 :: rest) (fun b h => hb b (by simp at h; rcases h with h | h; simp [h]; simp [h]))
    simp only [b64Encode, b64Decode, e1, e2, e3, e4, if_neg hne3, if_neg hne4, ih]
    have r1 : b1 / 4 * 4 + (b1 % 4 * 16 + b2 / 16) / 16 = b1 := by omega
    have r2 : (b1 % 4 * 16 + b2 / 16) % 16 * 16 + (b2 % 16 * 4 + b3 / 64) / 4 = b2 := by omega
    have r3 : (b2 % 16 * 4 + b3 / 64) % 4 * 64 + b3 % 64 = b3 := by omega
    rw [r1, r2, r3]
  | [b1, b2, b3], hb => by
    have h1 : b1 < 256 := hb b1 (by simp)
    have h2 : b2 < 256 := hb b2 (by simp)
    have h3 : b3 < 256 := hb b3 (by simp)
    have e1 := sextet_inverse2 (b1 / 4) (by omega)
    have e2 := sextet_inverse2 (b1 % 4 * 16 + b2 / 16) (by omega)
    have e3 := sextet_inverse2 (b2 % 16 * 4 + b3 / 64) (by omega)
    have e4 := sextet_inverse2 (b3 % 64) (by omega)
    have hne3 := sextetChar_ne_pad2 (b2 % 16 * 4 + b3 / 64) (by omega)
    have hne4 := sextetChar_ne_pad2 (b3 % 64) (by omega)
    simp only [b64Encode, b64Decode, e1, e2, e3, e4, if_neg hne3, if_neg hne4]
    have r1 : b1 / 4 * 4 + (b1 % 4 * 16 + b2 / 16) / 16 = b1 := by omega
    have r2 : (b1 % 4 * 16 + b2 / 16) % 16 * 16 + (b2 % 16 * 4 + b3 / 64) / 4 = b2 := by omega
    have r3 : (b2 % 16 * 4 + b3 / 64) % 4 * 64 + b3 % 64 = b3 := by omega
    rw [r1, r2, r3]

theorem utf16Units_lt (c : Char) : ∀ u ∈ utf16Units c, u < 0x10000 := by
  intro u hu
  have hv : c.toNat < 0xD800 ∨ (0xDFFF < c.toNat ∧ c.toNat < 0x110000) := c.valid
  unfold utf16Units at hu
  by_cases hb : c.toNat < 0x10000
  · simp [hb] at hu
    omega
  · simp [hb] at hu
    rcases hu with hu | hu <;> omega

theorem utf16leBytes_lt (s : List Char) : ∀ b ∈ utf16leBytes s, b < 256 := by
  intro b hb
  unfold utf16leBytes at hb
  rw [List.mem_flatMap] at hb
  obtain ⟨u, hu, hbu⟩ := hb
  rw [List.mem_flatMap] at hu
  obtain ⟨c, hc, huc⟩ := hu
  have hlt := utf16Units_lt c u huc
  simp at hbu
  rcases hbu with h | h <;> omega

/-- C2: the password encoding is exactly quote-wrap, then UTF-16LE bytes,
then base64; decoding base64, decoding UTF-16LE and stripping the quotes
recovers the plaintext exactly. -/
theorem password_encoding_roundtrip (p : String) :
    encodePassword p = String.mk (b64Encode (utf16leBytes (quoteWrap p))) ∧
    (b64Decode (encodePassword p).data).bind utf16leDecode = some (quoteWrap p) ∧
    stripQuotes (quoteWrap p) = some p.data := by
  refine ⟨rfl, ?_, ?_⟩
  · show (b64Decode (b64Encode (utf16leBytes (quoteWrap p)))).bind utf16leDecode = _
    rw [b64_roundtrip _ (utf16leBytes_lt (quoteWrap p))]
    show utf16leDecode (utf16leBytes (quoteWrap p)) = _
    exact utf16leDecode_encode (quoteWrap p)
  · show stripQuotes ('\"' :: (p.data ++ ['\"'])) = some p.data
    simp [stripQuotes, List.reverse_append]

theorem scanTok_eq : ∀ (l b : List Char) (sp : Char) (a : List Char),
    scanTok l = some (b, sp, a) → b ++ sp :: a = l := by
  intro l
  induction l with
  | nil =>
    intro b sp a h
    simp [scanTok] at h
  | cons c cs ih =>
    intro b sp a h
    simp only [scanTok] at h
    by_cases hsp : isSpecial c = true
    · rw [if_pos hsp] at h
      simp only [Option.some.injEq, Prod.mk.injEq] at h
      obtain ⟨h1, h2, h3⟩ := h
      subst h1
      subst h2
      subst h3
      simp
    · rw [if_neg hsp] at h
      cases hm : scanTok cs with
      | none => rw [hm] at h; simp at h
      | some t =>
        obtain ⟨b2, sp2, a2⟩ := t
        rw [hm] at h
        simp only [Option.some.injEq, Prod.mk.injEq] at h
        obtain ⟨rfl, rfl, rfl⟩ := h
        have hr := ih b2 sp2 a2 hm
        rw [List.cons_append, hr]

theorem consumeClose_eq : ∀ (input rc rest : List Char),
    consumeClose input = some (rc, rest) → rc ++ rest = input := by
  intro input rc rest h
  cases hdw : input.dropWhile isInlineWs with
  | nil =>
    simp only [consumeClose, hdw] at h
    exact Option.noConfusion h
  | cons c rest2 =>
    simp only [consumeClose, hdw] at h
    by_cases hc : c = '\x7d'
    · rw [if_pos hc] at h
      simp only [Option.some.injEq, Prod.mk.injEq] at h
      obtain ⟨h1, h2⟩ := h
      subst h1
      subst h2
      have hta := List.takeWhile_append_dropWhile isInlineWs input
      rw [hdw, hc] at hta
      rw [List.append_assoc]
      simpa using hta
    · rw [if_neg hc] at h
      simp at h

theorem parseEntries_roundtrip :
    ∀ (fuel : Nat) (input : List Char) (line : Nat) (inBlk : Bool)
      (es : List CEntry) (rem : List Char) (ln : Nat),
    parseEntries fuel input line inBlk = .ok (es, rem, ln) →
    serL es ++ rem = input := by
  intro fuel
  induction fuel with
  | zero =>
    intro input line inBlk es rem ln h
    simp [parseEntries] at h
  | succ f ih =>
    intro input line inBlk es rem ln h
    cases input with
    | nil =>
      simp only [parseEntries] at h
      split at h
      · exact Except.noConfusion h
      · simp only [Except.ok.injEq, Prod.mk.injEq] at h
        obtain ⟨rfl, rfl, rfl⟩ := h
        rfl
    | cons c cs =>
      simp only [parseEntries] at h
      split at h
      · -- blank or comment line: an opaque span is consumed
        split at h
        · rename_i es2 rem2 ln2 heq
          simp only [Except.ok.injEq, Prod.mk.injEq] at h
          obtain ⟨rfl, rfl, rfl⟩ := h
          have hr := ih _ _ _ _ _ _ heq
          simp only [serL, serE, List.append_assoc]
          rw [hr]
          exact List.take_append_drop _ _
        · exact Except.noConfusion h
      · split at h
        · -- close-brace line
          split at h
          · simp only [Except.ok.injEq, Prod.mk.injEq] at h
            obtain ⟨rfl, rfl, rfl⟩ := h
            rfl
          · exact Except.noConfusion h
        · -- directive or block entry
          split at h
          · exact Except.noConfusion h
          · rename_i bef sp aft heqScan
            split at h
            · -- directive
              rename_i hsp
              split at h
              · rename_i es2 rem2 ln2 heq
                simp only [Except.ok.injEq, Prod.mk.injEq] at h
                obtain ⟨rfl, rfl, rfl⟩ := h
                have hr := ih _ _ _ _ _ _ heq
                have hs := scanTok_eq _ _ _ _ heqScan
                rw [hsp] at hs
                simp only [serL, serE, List.append_assoc]
                rw [hr]
                simpa using hs
              · exact Except.noConfusion h
            · split at h
              · -- block
                rename_i hsp2
                split at h
                · rename_i body rem2 ln2 heqBody
                  split at h
                  · rename_i rawClose rem3 heqClose
                    split at h
                    · rename_i es2 rem4 ln4 heqCont
                      simp only [Except.ok.injEq, Prod.mk.injEq] at h
                      obtain ⟨rfl, rfl, rfl⟩ := h
                      have hrBody := ih _ _ _ _ _ _ heqBody
                      have hrClose := consumeClose_eq _ _ _ heqClose
                      have hrCont := ih _ _ _ _ _ _ heqCont
                      have hs := scanTok_eq _ _ _ _ heqScan
                      rw [hsp2] at hs
                      simp only [serL, serE, List.append_assoc]
                      rw [hrCont, hrClose, hrBody]
                      simpa using hs
                    · exact Except.noConfusion h
                  · exact Except.noConfusion h
                · exact Except.noConfusion h
              · exact Except.noConfusion h

/-- C1: for every well-formed config text, serializing the parse result
reproduces the text byte-for-byte, and Parse and Serialize are exact
inverses on any document the parser itself produced. -/
theorem parse_serialize_roundtrip (t : String) (d : List CEntry)
    (h : parseConfig t = .ok d) :
    serializeConfig d = t ∧ parseConfig (serializeConfig d) = .ok d := by
  have h0 := h
  unfold parseConfig at h0
  split at h0
  · rename_i es ln heq
    simp only [Except.ok.injEq] at h0
    subst h0
    have hr := parseEntries_roundtrip _ _ _ _ _ _ _ heq
    rw [List.append_nil] at hr
    have hser : serializeConfig es = t := by
      unfold serializeConfig
      rw [hr]
    exact ⟨hser, by rw [hser]; exact h⟩
  · exact Except.noConfusion h0
  · exact Except.noConfusion h0

theorem parse_serialize_roundtrip_witness :
    parseConfig sampleText = .ok sampleParsed ∧
    serializeConfig sampleParsed = sampleText :=
  ⟨rfl, (parse_serialize_roundtrip sampleText sampleParsed rfl).1⟩

theorem parseEntries_ok_line_le :
    ∀ (fuel : Nat) (input : List Char) (line : Nat) (inBlk : Bool)
      (es : List CEntry) (rem : List Char) (ln : Nat),
    parseEntries fuel input line inBlk = .ok (es, rem, ln) → line ≤ ln := by
  intro fuel
  induction fuel with
  | zero =>
    intro input line inBlk es rem ln h
    simp [parseEntries] at h
  | succ f ih =>
    intro input line inBlk es rem ln h
    cases input with
    | nil =>
      simp only [parseEntries] at h
      split at h
      · exact Except.noConfusion h
      · simp only [Except.ok.injEq, Prod.mk.injEq] at h
        obtain ⟨rfl, rfl, rfl⟩ := h
        exact le_refl _
    | cons c cs =>
      simp only [parseEntries] at h
      split at h
      · split at h
        · rename_i es2 rem2 ln2 heq
          simp only [Except.ok.injEq, Prod.mk.injEq] at h
          obtain ⟨rfl, rfl, rfl⟩ := h
          have hle := ih _ _ _ _ _ _ heq
          omega
        · exact Except.noConfusion h
      · split at h
        · split at h
          · simp only [Except.ok.injEq, Prod.mk.injEq] at h
            obtain ⟨rfl, rfl, rfl⟩ := h
            exact le_refl _
          · exact Except.noConfusion h
        · split at h
          · exact Except.noConfusion h
          · rename_i bef sp aft heqScan
            split at h
            · split at h
              · rename_i es2 rem2 ln2 heq
                simp only [Except.ok.injEq, Prod.mk.injEq] at h
                obtain ⟨rfl, rfl, rfl⟩ := h
                have hle := ih _ _ _ _ _ _ heq
                omega
              · exact Except.noConfusion h
            · split at h
              · split at h
                · rename_i body rem2 ln2 heqBody
                  split at h
                  · rename_i rawClose rem3 heqClose
                    split at h
                    · rename_i es2 rem4 ln4 heqCont
                      simp only [Except.ok.injEq, Prod.mk.injEq] at h
                      obtain ⟨rfl, rfl, rfl⟩ := h
                      have h1 := ih _ _ _ _ _ _ heqBody
                      have h2 := ih _ _ _ _ _ _ heqCont
                      omega
                    · exact Except.noConfusion h
                  · exact Except.noConfusion h
                · exact Except.noConfusion h
              · exact Except.noConfusion h

theorem parseEntries_error_form :
    ∀ (fuel : Nat) (input : List Char) (line : Nat) (inBlk : Bool) (e : CfgError),
    parseEntries fuel input line inBlk = .error e →
    ∃ n, e = .syntaxError n ∧ line ≤ n := by
  intro fuel
  induction fuel with
  | zero =>
    intro input line inBlk e h
    simp only [parseEntries, Except.error.injEq] at h
    exact ⟨line, h.symm, le_refl _⟩
  | succ f ih =>
    intro input line inBlk e h
    cases input with
    | nil =>
      simp only [parseEntries] at h
      split at h
      · simp only [Except.error.injEq] at h
        exact ⟨line, h.symm, le_refl _⟩
      · exact Except.noConfusion h
    | cons c cs =>
      simp only [parseEntries] at h
      split at h
      · split at h
        · exact Except.noConfusion h
        · rename_i e2 heq
          simp only [Except.error.injEq] at h
          subst h
          obtain ⟨n, hn, hle⟩ := ih _ _ _ _ heq
          exact ⟨n, hn, by omega⟩
      · split at h
        · split at h
          · exact Except.noConfusion h
          · simp only [Except.error.injEq] at h
            exact ⟨line, h.symm, le_refl _⟩
        · split at h
          · simp only [Except.error.injEq] at h
            exact ⟨line, h.symm, le_refl _⟩
          · rename_i bef sp aft heqScan
            split at h
            · split at h
              · exact Except.noConfusion h
              · rename_i e2 heq
                simp only [Except.error.injEq] at h
                subst h
                obtain ⟨n, hn, hle⟩ := ih _ _ _ _ heq
                exact ⟨n, hn, by omega⟩
            · split at h
              · split at h
                · rename_i body rem2 ln2 heqBody
                  split at h
                  · rename_i rawClose rem3 heqClose
                    split at h
                    · exact Except.noConfusion h
                    · rename_i e2 heq
                      simp only [Except.error.injEq] at h
                      subst h
                      obtain ⟨n, hn, hle⟩ := ih _ _ _ _ heq
                      have hb := parseEntries_ok_line_le _ _ _ _ _ _ _ heqBody
                      exact ⟨n, hn, by omega⟩
                  · simp only [Except.error.injEq] at h
                    have hb := parseEntries_ok_line_le _ _ _ _ _ _ _ heqBody
                    exact ⟨ln2, h.symm, by omega⟩
                · rename_i e2 heq
                  simp only [Except.error.injEq] at h
                  subst h
                  obtain ⟨n, hn, hle⟩ := ih _ _ _ _ heq
                  exact ⟨n, hn, by omega⟩
              · simp only [Except.error.injEq] at h
                exact ⟨line, h.symm, le_refl _⟩

theorem scanTok_none : ∀ l : List Char, (∀ c ∈ l, isSpecial c = false) →
    scanTok l = none := by
  intro l
  induction l with
  | nil => intro _; rfl
  | cons c cs ih =>
    intro hall
    have hc := hall c (List.mem_cons_self c cs)
    simp only [scanTok, hc, Bool.false_eq_true, if_false]
    rw [ih (fun x hx => hall x (List.mem_cons_of_mem c hx))]

theorem scanTok_push : ∀ (l : List Char) (s : Char),
    (∀ c ∈ l, isSpecial c = false) → isSpecial s = true →
    scanTok (l ++ [s]) = some (l, s, []) := by
  intro l
  induction l with
  | nil =>
    intro s _ hs
    simp [scanTok, hs]
  | cons c cs ih =>
    intro s hall hs
    have hc := hall c (List.mem_cons_self c cs)
    simp only [List.cons_append, scanTok, hc, Bool.false_eq_true, if_false,
      List.append_eq]
    rw [ih s (fun x hx => hall x (List.mem_cons_of_mem c hx)) hs]

theorem countNl_eq_zero (l : List Char) (h : ∀ c ∈ l, (c == '\n') = false) :
    countNl l = 0 := by
  unfold countNl
  rw [List.countP_eq_zero]
  intro a ha
  simp [h a ha]

theorem plain_line_head {c : Char} (cs : List Char) (hp : isPlainChar c = true) :
    isBlankLine ((c :: cs).takeWhile (fun ch => ch ≠ '\n')) = false ∧
    isCommentLine ((c :: cs).takeWhile (fun ch => ch ≠ '\n')) = false ∧
    startsClose ((c :: cs).takeWhile (fun ch => ch ≠ '\n')) = false := by
  simp only [isPlainChar, Bool.and_eq_true, Bool.not_eq_true'] at hp
  obtain ⟨⟨⟨hsp, hnl⟩, hhash⟩, hws⟩ := hp
  have hcnl : ¬ c = '\n' := by simpa using hnl
  have ht : (c :: cs).takeWhile (fun ch => ch ≠ '\n') =
      c :: cs.takeWhile (fun ch => ch ≠ '\n') := by
    simp [List.takeWhile_cons, hcnl]
  rw [ht]
  have hdw : (c :: cs.takeWhile (fun ch => ch ≠ '\n')).dropWhile isInlineWs =
      c :: cs.takeWhile (fun ch => ch ≠ '\n') := by
    rw [List.dropWhile_cons, if_neg (by simp [hws])]
  refine ⟨?_, ?_, ?_⟩
  · simp [isBlankLine, hws]
  · unfold isCommentLine
    rw [hdw]
    simpa using hhash
  · unfold startsClose
    rw [hdw]
    have : (c == '\x7d') = false := by
      simp only [isSpecial, Bool.or_eq_false_iff] at hsp
      exact hsp.2
    simpa using this

theorem parseConfig_error_form (t : String) (e : CfgError)
    (h : parseConfig t = .error e) : ∃ n, e = .syntaxError n ∧ 1 ≤ n := by
  unfold parseConfig at h
  split at h
  · exact Except.noConfusion h
  · rename_i es x xs ln heq
    simp only [Except.error.injEq] at h
    have hle := parseEntries_ok_line_le _ _ _ _ _ _ _ heq
    exact ⟨ln, h.symm, hle⟩
  · rename_i e2 heq
    simp only [Except.error.injEq] at h
    subst h
    exact parseEntries_error_form _ _ _ _ _ heq

theorem plain_no_special {t : List Char} (hp : ∀ c ∈ t, isPlainChar c = true) :
    ∀ c ∈ t, isSpecial c = false := by
  intro x hx
  have := hp x hx
  simp only [isPlainChar, Bool.and_eq_true, Bool.not_eq_true'] at this
  exact this.1.1.1

theorem plain_no_nl {t : List Char} (hp : ∀ c ∈ t, isPlainChar c = true) :
    ∀ c ∈ t, (c == '\n') = false := by
  intro x hx
  have := hp x hx
  simp only [isPlainChar, Bool.and_eq_true, Bool.not_eq_true'] at this
  simpa using this.1.1.2

theorem parse_unterminated_directive (t : List Char) (hne : t ≠ [])
    (hp : ∀ c ∈ t, isPlainChar c = true) :
    parseConfig (String.mk t) = .error (.syntaxError 1) := by
  cases t with
  | nil => exact absurd rfl hne
  | cons c cs =>
    have hpc := hp c (List.mem_cons_self c cs)
    obtain ⟨hb, hcm, hcl⟩ := plain_line_head cs hpc
    have hscan : scanTok (c :: cs) = none := scanTok_none _ (plain_no_special hp)
    have hstep : parseConfig (String.mk (c :: cs)) =
        match parseEntries ((c :: cs).length + 1) (c :: cs) 1 false with
        | .ok (es, [], _) => .ok es
        | .ok (_, _ :: _, ln) => .error (.syntaxError ln)
        | .error e => .error e := rfl
    rw [hstep]
    simp only [List.length_cons, parseEntries, hb, hcm, hcl, hscan,
      Bool.or_self, Bool.false_eq_true, if_false]

theorem parse_unterminated_block (t : List Char) (hne : t ≠ [])
    (hp : ∀ c ∈ t, isPlainChar c = true) :
    parseConfig (String.mk (t ++ ['\x7b'])) = .error (.syntaxError 1) := by
  cases t with
  | nil => exact absurd rfl hne
  | cons c cs =>
    have hpc := hp c (List.mem_cons_self c cs)
    obtain ⟨hb, hcm, hcl⟩ := plain_line_head (cs ++ ['\x7b']) hpc
    have hscan : scanTok (c :: (cs ++ ['\x7b'])) = some (c :: cs, '\x7b', []) :=
      scanTok_push (c :: cs) '\x7b' (plain_no_special hp) (by decide)
    have hnl : countNl (c :: cs) = 0 := countNl_eq_zero _ (plain_no_nl hp)
    have hstep : parseConfig (String.mk (c :: cs ++ ['\x7b'])) =
        match parseEntries ((c :: cs ++ ['\x7b']).length + 1) (c :: cs ++ ['\x7b'])
            1 false with
        | .ok (es, [], _) => .ok es
        | .ok (_, _ :: _, ln) => .error (.syntaxError ln)
        | .error e => .error e := rfl
    rw [hstep]
    simp only [ne_eq, decide_not] at hb hcm hcl
    simp [parseEntries, hb, hcm, hcl, hscan, hnl]

/-- C8: every parse failure is a SyntaxError carrying a 1-based line number
and yields no document; in particular a bare token with no terminating
semicolon (unterminated directive) and a header whose opening brace is never
closed (unterminated block) both abort the parse with a SyntaxError at
line 1. -/
theorem parse_failure_policy :
    (∀ (t : String) (e : CfgError), parseConfig t = .error e →
      ∃ n, e = CfgError.syntaxError n ∧ 1 ≤ n) ∧
    (∀ t : List Char, t ≠ [] → (∀ c ∈ t, isPlainChar c = true) →
      parseConfig (String.mk t) = .error (.syntaxError 1) ∧
      parseConfig (String.mk (t ++ ['\x7b'])) = .error (.syntaxError 1)) := by
  refine ⟨parseConfig_error_form, ?_⟩
  intro t hne hp
  exact ⟨parse_unterminated_directive t hne hp, parse_unterminated_block t hne hp⟩

theorem parse_failure_policy_witness :
    parseConfig (String.mk "range".data) = .error (.syntaxError 1) ∧
    parseConfig (String.mk ("subnet".data ++ ['\x7b'])) = .error (.syntaxError 1) ∧
    (∃ n, CfgError.syntaxError 1 = CfgError.syntaxError n ∧ 1 ≤ n) :=
  ⟨(parse_failure_policy.2 "range".data (by decide) (by decide)).1,
   (parse_failure_policy.2 "subnet".data (by decide) (by decide)).2,
   parse_failure_policy.1 (String.mk "range".data) (.syntaxError 1)
     ((parse_failure_policy.2 "range".data (by decide) (by decide)).1)⟩

theorem removeHost_not_found : ∀ (doc : List CEntry) (hn : String),
    hasHost doc hn = false → removeHost doc hn = .error .blockNotFound := by
  intro doc hn
  induction doc with
  | nil => intro _; rfl
  | cons e es ih =>
    intro h
    simp only [hasHost, List.any_cons, Bool.or_eq_false_iff] at h
    obtain ⟨h1, h2⟩ := h
    have ih2 := ih h2
    simp only [removeHost, h1, Bool.false_eq_true, if_false, ih2]

theorem updateSubnet_not_found : ∀ (doc : List CEntry) (net mask : String)
    (p : SubnetPatch), hasSubnet doc net mask = false →
    updateSubnet doc net mask p = .error .blockNotFound := by
  intro doc net mask p
  induction doc with
  | nil => intro _; rfl
  | cons e es ih =>
    intro h
    simp only [hasSubnet, List.any_cons, Bool.or_eq_false_iff] at h
    obtain ⟨h1, h2⟩ := h
    have ih2 := ih h2
    cases e with
    | block hh body ro rc =>
      have h1b : isSubnetHeader net mask hh = false := by
        simpa [entryIsSubnet] using h1
      simp only [updateSubnet, h1b, Bool.false_eq_true, if_false, ih2]
    | directive ct raw => simp only [updateSubnet, ih2]
    | rawSpan raw => simp only [updateSubnet, ih2]

theorem addSubnet_duplicate (doc : List CEntry) (net mask : String)
    (nb : List CEntry) (h : hasSubnet doc net mask = true) :
    addSubnet doc net mask nb = .error .duplicateBlock := by
  simp [addSubnet, h]

/-- C4: removing a host block that does not exist fails with BlockNotFound
(the input document is returned nowhere, so there is no partial mutation);
updating an absent subnet also fails with BlockNotFound; adding a subnet
whose network and mask already exist fails with DuplicateBlock. -/
theorem mutation_absent_target_errors (doc : List CEntry)
    (hn net mask : String) (p : SubnetPatch) (nb : List CEntry) :
    (hasHost doc hn = false → removeHost doc hn = .error .blockNotFound) ∧
    (hasSubnet doc net mask = false →
      updateSubnet doc net mask p = .error .blockNotFound) ∧
    (hasSubnet doc net mask = true →
      addSubnet doc net mask nb = .error .duplicateBlock) :=
  ⟨removeHost_not_found doc hn, updateSubnet_not_found doc net mask p,
   addSubnet_duplicate doc net mask nb⟩

theorem mutation_absent_target_errors_witness :
    hasHost sampleHostDoc "printer-01" = false ∧
    removeHost sampleHostDoc "printer-01" = .error .blockNotFound ∧
    updateSubnet sampleHostDoc "10.0.0.0" "255.0.0.0" samplePatch =
      .error .blockNotFound ∧
    addSubnet sampleParsed "192.168.1.0" "255.255.255.0" [] =
      .error .duplicateBlock :=
  ⟨rfl,
   (mutation_absent_target_errors sampleHostDoc "printer-01" "10.0.0.0"
      "255.0.0.0" samplePatch []).1 rfl,
   (mutation_absent_target_errors sampleHostDoc "printer-01" "10.0.0.0"
      "255.0.0.0" samplePatch []).2.1 rfl,
   (mutation_absent_target_errors sampleParsed "printer-01" "192.168.1.0"
      "255.255.255.0" samplePatch []).2.2 rfl⟩

theorem patchEntry_untouched (p : SubnetPatch) (e : CEntry)
    (h : untouchedBy p e) : patchEntry p e = e := by
  cases e with
  | directive ct raw =>
    simp only [untouchedBy] at h
    simp [patchEntry, h]
  | block hh body ro rc => rfl
  | rawSpan raw => rfl

/-- C3: a successful UpdateSubnet call rewrites exactly one subnet block:
the document before and after the call share the same prefix and suffix
(so the serialized text differs only inside the edited block), the block
body is rewritten entry by entry, and every nested directive not named by
a present patch field is returned unchanged, raw bytes included. -/
theorem updateSubnet_frame :
    ∀ (doc : List CEntry) (net mask : String) (p : SubnetPatch)
      (doc2 : List CEntry),
    updateSubnet doc net mask p = .ok doc2 →
    ∃ pre hh body ro rc post,
      doc = pre ++ CEntry.block hh body ro rc :: post ∧
      isSubnetHeader net mask hh = true ∧
      doc2 = pre ++ CEntry.block hh (body.map (patchEntry p)) ro rc :: post ∧
      serL doc = serL pre ++ (ro ++ serL body ++ rc) ++ serL post ∧
      serL doc2 = serL pre ++ (ro ++ serL (body.map (patchEntry p)) ++ rc)
        ++ serL post ∧
      ∀ e ∈ body, untouchedBy p e → patchEntry p e = e := by
  intro doc
  induction doc with
  | nil =>
    intro net mask p doc2 h
    exact Except.noConfusion h
  | cons e es ih =>
    intro net mask p doc2 h
    cases e with
    | block hh body ro rc =>
      simp only [updateSubnet] at h
      split at h
      · rename_i hsub
        simp only [Except.ok.injEq] at h
        subst h
        refine ⟨[], hh, body, ro, rc, es, by simp, hsub, by simp, ?_, ?_, ?_⟩
        · simp [serL, serE, List.append_assoc]
        · simp [serL, serE, List.append_assoc]
        · intro e2 he2 hu
          exact patchEntry_untouched p e2 hu
      · rename_i hsub
        split at h
        · rename_i es2 heq
          simp only [Except.ok.injEq] at h
          subst h
          obtain ⟨pre, hh2, body2, ro2, rc2, post, h1, h2, h3, h4, h5, h6⟩ :=
            ih _ _ _ _ heq
          refine ⟨CEntry.block hh body ro rc :: pre, hh2, body2, ro2, rc2, post,
            by simp [h1], h2, by simp [h3], ?_, ?_, h6⟩
          · simp [serL, h4, List.append_assoc]
          · simp [serL, h5, List.append_assoc]
        · exact Except.noConfusion h
    | directive ct raw =>
      simp only [updateSubnet] at h
      split at h
      · rename_i es2 heq
        simp only [Except.ok.injEq] at h
        subst h
        obtain ⟨pre, hh2, body2, ro2, rc2, post, h1, h2, h3, h4, h5, h6⟩ :=
          ih _ _ _ _ heq
        refine ⟨CEntry.directive ct raw :: pre, hh2, body2, ro2, rc2, post,
          by simp [h1], h2, by simp [h3], ?_, ?_, h6⟩
        · simp [serL, h4, List.append_assoc]
        · simp [serL, h5, List.append_assoc]
      · exact Except.noConfusion h
    | rawSpan raw =>
      simp only [updateSubnet] at h
      split at h
      · rename_i es2 heq
        simp only [Except.ok.injEq] at h
        subst h
        obtain ⟨pre, hh2, body2, ro2, rc2, post, h1, h2, h3, h4, h5, h6⟩ :=
          ih _ _ _ _ heq
        refine ⟨CEntry.rawSpan raw :: pre, hh2, body2, ro2, rc2, post,
          by simp [h1], h2, by simp [h3], ?_, ?_, h6⟩
        · simp [serL, h4, List.append_assoc]
        · simp [serL, h5, List.append_assoc]
      · exact Except.noConfusion h

theorem updateSubnet_frame_witness :
    serializeConfig sampleUpdated = sampleTextEdited ∧
    (∃ pre hh body ro rc post,
      sampleParsed = pre ++ CEntry.block hh body ro rc :: post ∧
      isSubnetHeader "192.168.1.0" "255.255.255.0" hh = true ∧
      sampleUpdated = pre ++
        CEntry.block hh (body.map (patchEntry samplePatch)) ro rc :: post ∧
      serL sampleParsed = serL pre ++ (ro ++ serL body ++ rc) ++ serL post ∧
      serL sampleUpdated = serL pre ++
        (ro ++ serL (body.map (patchEntry samplePatch)) ++ rc) ++ serL post ∧
      ∀ e ∈ body, untouchedBy samplePatch e → patchEntry samplePatch e = e) :=
  ⟨rfl, updateSubnet_frame sampleParsed "192.168.1.0" "255.255.255.0"
    samplePatch sampleUpdated rfl⟩
